import Mathlib

/-!
# Finger-Firework: verification of the particle animation and pinch trigger

Shallow embedding of the original logic of the repository: the `Particle`
and `Firework` classes and the per-frame pinch-gesture trigger inside the
p5 sketch (`FireworkSketch`).

Modelling conventions:
* p5 vectors are pairs of rationals (`Vec`); JS numbers are modelled as `ℚ`
  (all arithmetic in the animation is +, -, *, /; `Math.sqrt` appears only
  in the pinch distance and is modelled exactly over `ℝ`, see `distance`).
* every call to the random source (`p5.Vector.random2D()`, `p.random(a, b)`)
  is modelled as an explicit input: a `PRand` record per particle and a hue
  draw per burst, with a validity predicate recording the documented ranges.
* the particle colour `p.color(hue, 255, 255)` stores its hue; saturation
  and brightness are the constants 255, re-emitted verbatim by `show`.
-/

/-- 2D vector, as p5's `p5.Vector` restricted to the two used components. -/
abbrev Vec := ℚ × ℚ

namespace Vec

/-- `v.add(w)` of p5. -/
def add (a b : Vec) : Vec := (a.1 + b.1, a.2 + b.2)

/-- `v.mult(s)` of p5 (componentwise scaling). -/
def mult (a : Vec) (s : ℚ) : Vec := (s * a.1, s * a.2)

end Vec

/-- One particle's worth of draws from the random source:
`dir` is the value of `p5.Vector.random2D()` (a unit vector),
`speed` the value of `p.random(5, 22)`, `decay` of `p.random(1.5, 4)`,
`rise` of `p.random(-12, -8)` (only read in the non-explosion branch). -/
structure PRand where
  dir : Vec
  speed : ℚ
  decay : ℚ
  rise : ℚ
deriving DecidableEq

/-- The documented contract of the random calls: `random2D` returns a unit
vector and `p.random(a, b)` returns a value in `[a, b)`. -/
def PRand.Valid (r : PRand) : Prop :=
  r.dir.1 ^ 2 + r.dir.2 ^ 2 = 1 ∧
  5 ≤ r.speed ∧ r.speed < 22 ∧
  3/2 ≤ r.decay ∧ r.decay < 4 ∧
  -12 ≤ r.rise ∧ r.rise < -8

instance (r : PRand) : Decidable r.Valid := by
  unfold PRand.Valid; infer_instance

/-- The `Particle` class: position, velocity, accumulated force, the hue
stored in `this.color = p.color(hue, 255, 255)`, lifespan and decay rate. -/
structure Particle where
  pos : Vec
  vel : Vec
  acc : Vec
  hue : ℚ
  lifespan : ℚ
  decay : ℚ
deriving DecidableEq

namespace Particle

/-- The `Particle` constructor. `r` carries the values drawn from the
random source at that call site. -/
def new (x y hue : ℚ) (r : PRand) (explosion : Bool) : Particle :=
  if explosion then
    { pos := (x, y),
      lifespan := 255,
      hue := hue,
      acc := (0, 0),
      vel := Vec.mult r.dir r.speed,
      decay := r.decay }
  else
    { pos := (x, y),
      lifespan := 255,
      hue := hue,
      acc := (0, 0),
      vel := (0, r.rise),
      decay := 0 }

/-- `applyForce(force)`: `this.acc.add(force)`. -/
def applyForce (pt : Particle) (force : Vec) : Particle :=
  { pt with acc := Vec.add pt.acc force }

/-- `update()`: guarded by `lifespan > 0`; then
`vel.mult(0.92); vel.add(acc); pos.add(vel); acc.mult(0); lifespan -= decay`. -/
def update (pt : Particle) : Particle :=
  if 0 < pt.lifespan then
    let v := Vec.add (Vec.mult pt.vel 0.92) pt.acc
    { pt with
      vel := v,
      pos := Vec.add pt.pos v,
      acc := Vec.mult pt.acc 0,
      lifespan := pt.lifespan - pt.decay }
  else
    pt

/-- `done()`: `this.lifespan < 0`. -/
def done (pt : Particle) : Bool := decide (pt.lifespan < 0)

end Particle

/-- One emitted draw call of `Particle.show`:
`strokeWeight(size); stroke(hue(color), 255, 255, lifespan / 255); point(pos.x, pos.y)`. -/
structure DrawCall where
  x : ℚ
  y : ℚ
  hue : ℚ
  sat : ℚ
  bright : ℚ
  alpha : ℚ
  weight : ℚ
deriving DecidableEq

/-- `show()` of `Particle` (named `show'` because `show` is a Lean keyword):
`size = lifespan > 200 ? 5 : 3`, then a single point at `pos`
with `stroke(hue(color), 255, 255, lifespan / 255)`. -/
def Particle.show' (pt : Particle) : DrawCall :=
  { x := pt.pos.1,
    y := pt.pos.2,
    hue := pt.hue,
    sat := 255,
    bright := 255,
    alpha := pt.lifespan / 255,
    weight := if 200 < pt.lifespan then 5 else 3 }

/-- The `Firework` class: a hue chosen at construction, the owned particle
collection, and the completion flag `done`. -/
structure Firework where
  particles : List Particle
  hue : ℚ
  done : Bool

namespace Firework

/-- `explode(x, y)`: push `count = 120` new explosion-mode particles; the
`i`-th `new Particle(...)` consumes the draws `rand i`. -/
def explode (f : Firework) (x y : ℚ) (rand : ℕ → PRand) : Firework :=
  { f with
    particles :=
      f.particles ++ (List.range 120).map fun i => Particle.new x y f.hue (rand i) true }

/-- The `Firework` constructor: `hue = p.random(0, 360)` (passed in as the
value `hueDraw` of that random call), empty particle list, `done = false`,
then immediately `explode(x, y)`. -/
def new (x y hueDraw : ℚ) (rand : ℕ → PRand) : Firework :=
  Firework.explode { particles := [], hue := hueDraw, done := false } x y rand

/-- The gravity vector `p.createVector(0, 0.15)` of `Firework.update`. -/
def gravity : Vec := (0, 0.15)

/-- The body of `Firework.update`'s loop for one particle:
`applyForce(gravity)` then `update()`. -/
def burstStep (pt : Particle) : Particle := (pt.applyForce gravity).update

/-- `Firework.update()`: iterate over the particles back to front, apply
gravity and `update()` to each, and `splice` out those whose `done()` holds.
The loop body touches only the current element, so the surviving particles
are exactly the stepped non-done ones in their original order.  Finally
`done` is set when the collection has become empty (`length === 0`). -/
def update (f : Firework) : Firework :=
  let ps := (f.particles.map burstStep).filter fun pt => !pt.done
  { f with particles := ps, done := if ps.isEmpty then true else f.done }

/-- `Firework.show()`: `show()` each particle in order. -/
def show' (f : Firework) : List DrawCall := f.particles.map Particle.show'

end Firework

/-- The firework section of `p.draw`: iterate over the active bursts back to
front; for each, `update()`, then `show()`, then remove it when `done`.
Per-element independence again: the surviving bursts are the updated
non-done ones in order, and the draw calls are emitted in back-to-front
burst order (each burst's own particles in order). -/
def stepFrame (fs : List Firework) : List Firework × List DrawCall :=
  let fsu := fs.map Firework.update
  (fsu.filter (fun f => !f.done), (fsu.reverse.map Firework.show').flatten)

/-! ## Pinch trigger -/

/-- The two landmarks the sketch reads from a detected hand:
`hand[HandLandmark.THUMB_TIP]` and `hand[HandLandmark.INDEX_FINGER_TIP]`
(only the `x` and `y` components are used). -/
structure Hand where
  thumbTip : ℚ × ℚ
  indexTip : ℚ × ℚ
deriving DecidableEq

/-- `const pinchThreshold = 0.05`. -/
def pinchThreshold : ℚ := 0.05

/-- `dx * dx + dy * dy` with `dx = thumbTip.x - indexTip.x`,
`dy = thumbTip.y - indexTip.y`. -/
def dist2 (h : Hand) : ℚ :=
  (h.thumbTip.1 - h.indexTip.1) * (h.thumbTip.1 - h.indexTip.1) +
  (h.thumbTip.2 - h.indexTip.2) * (h.thumbTip.2 - h.indexTip.2)

/-- `const distance = Math.sqrt(dx * dx + dy * dy)`, exactly over `ℝ`. -/
noncomputable def distance (h : Hand) : ℝ := Real.sqrt ((dist2 h : ℚ) : ℝ)

/-- `const isPinched = distance < pinchThreshold`.  The source compares the
square root against 0.05; both sides are nonnegative, so this equals the
executable comparison of `dist2` against `0.05²` (proved in
`isPinched_iff_distance_lt`), which keeps the classifier decidable over ℚ. -/
def isPinched (h : Hand) : Bool := decide (dist2 h < pinchThreshold ^ 2)

/-- The `handPinchStates : Map<number, boolean>` table: `none` for an index
never set, mirroring `Map.get` returning `undefined`. -/
def PinchState := ℕ → Option Bool

/-- The empty `new Map()`. -/
def PinchState.empty : PinchState := fun _ => none

/-- One spawn event: the argument of `new Firework(p, x, y)`. -/
structure Spawn where
  x : ℚ
  y : ℚ
deriving DecidableEq

/-- The spawn point computed at trigger time:
`midX = (thumbTip.x + indexTip.x) / 2` (same for `y`), then
`x = midX * p.width`, `y = midY * p.height`. -/
def midpointSpawn (w ht : ℚ) (h : Hand) : Spawn :=
  { x := (h.thumbTip.1 + h.indexTip.1) / 2 * w,
    y := (h.thumbTip.2 + h.indexTip.2) / 2 * ht }

/-- The body of `detections.landmarks.forEach((hand, index) => ...)` for one
hand: classify, read `handPinchStates.get(index) || false`, fire on the
false→true edge, and unconditionally `handPinchStates.set(index, isPinched)`. -/
def processHand (w ht : ℚ) (idx : ℕ) (h : Hand) (st : PinchState) :
    PinchState × Option Spawn :=
  let pinched := isPinched h
  let was := (st idx).getD false
  let ev := if pinched && !was then some (midpointSpawn w ht h) else none
  (fun j => if j = idx then some pinched else st j, ev)

/-- The `forEach` over the hands of one frame, threading the state table and
collecting the spawn events; `idx` is the running `forEach` index. -/
def stepHandsFrom (w ht : ℚ) : ℕ → List Hand → PinchState → PinchState × List Spawn
  | _, [], st => (st, [])
  | idx, h :: rest, st =>
      let r1 := processHand w ht idx h st
      let r2 := stepHandsFrom w ht (idx + 1) rest r1.1
      (r2.1, r1.2.toList ++ r2.2)

/-- One frame's trigger step, starting the `forEach` index at 0. -/
def stepHands (w ht : ℚ) (hands : List Hand) (st : PinchState) :
    PinchState × List Spawn :=
  stepHandsFrom w ht 0 hands st

/-- Several consecutive frames of the trigger step, returning the final state
table and the per-frame spawn-event lists. -/
def runTrigger (w ht : ℚ) : List (List Hand) → PinchState → PinchState × List (List Spawn)
  | [], st => (st, [])
  | hands :: rest, st =>
      let r1 := stepHands w ht hands st
      let r2 := runTrigger w ht rest r1.1
      (r2.1, r1.2 :: r2.2)

/-! ## Runs of the animation -/

/-- One spawn event reaching the animation: the spawn point together with the
values the burst construction will draw from the random source. -/
structure SpawnEvent where
  x : ℚ
  y : ℚ
  hueDraw : ℚ
  rand : ℕ → PRand

/-- `fireworks.push(new Firework(p, x, y))` for each spawn event of a frame. -/
def spawnBursts (fs : List Firework) (evs : List SpawnEvent) : List Firework :=
  fs ++ evs.map fun e => Firework.new e.x e.y e.hueDraw e.rand

/-- The whole animation as a function of the spawn schedule and the initial
burst list: each frame pushes its spawn events' bursts, then updates, draws
and retires (`stepFrame`), recording the post-frame burst list and the
frame's draw calls. -/
def runAnimation : List (List SpawnEvent) → List Firework → List (List Firework × List DrawCall)
  | [], _ => []
  | evs :: rest, fs =>
      let r := stepFrame (spawnBursts fs evs)
      r :: runAnimation rest r.1

/-! ## Theorems -/

/-- The source classifies a pinch by `Math.sqrt(dx*dx+dy*dy) < 0.05`; the
executable classifier compares `dist2` against `0.05 ^ 2`.  Both sides of
the source's comparison are nonnegative, so the two agree. -/
theorem isPinched_iff_distance_lt (h : Hand) :
    isPinched h = true ↔ distance h < 0.05 := by
  unfold isPinched distance pinchThreshold
  rw [decide_eq_true_eq]
  rw [Real.sqrt_lt' (by norm_num : (0:ℝ) < 0.05)]
  have h2 : ((0.05 : ℝ)) ^ 2 = (((0.05 : ℚ) ^ 2 : ℚ) : ℝ) := by
    push_cast
    norm_num
  rw [h2, Rat.cast_lt]

/-- **C7.** One burst update step first adds the constant gravity vector
`(0, 0.15)` to the particle's accumulated force, and then, for a particle
with positive lifespan, produces `vel' = 0.92 * vel + acc`,
`pos' = pos + vel'`, `lifespan' = lifespan - decay`, and resets the
accumulated force to zero, in exactly that order. -/
theorem burstStep_integration (pt : Particle) (hl : 0 < pt.lifespan) :
    Firework.gravity = (0, 0.15)
    ∧ (pt.applyForce Firework.gravity).acc = Vec.add pt.acc (0, 0.15)
    ∧ Firework.burstStep pt =
        { pos := Vec.add pt.pos (Vec.add (Vec.mult pt.vel 0.92) (Vec.add pt.acc (0, 0.15))),
          vel := Vec.add (Vec.mult pt.vel 0.92) (Vec.add pt.acc (0, 0.15)),
          acc := (0, 0),
          hue := pt.hue,
          lifespan := pt.lifespan - pt.decay,
          decay := pt.decay } := by
  refine ⟨rfl, rfl, ?_⟩
  unfold Firework.burstStep Particle.applyForce Particle.update
  rw [if_pos hl]
  simp only [Particle.mk.injEq, Vec.add, Vec.mult, Firework.gravity]
  norm_num

/-- Closed instance of `burstStep_integration` at a concrete particle. -/
theorem burstStep_integration_witness :
    Firework.burstStep ⟨(3, 4), (1, 2), (0, 0), 10, 1, 2⟩ =
      { pos := Vec.add (3, 4) (Vec.add (Vec.mult (1, 2) 0.92) (Vec.add (0, 0) (0, 0.15))),
        vel := Vec.add (Vec.mult (1, 2) 0.92) (Vec.add (0, 0) (0, 0.15)),
        acc := (0, 0),
        hue := 10,
        lifespan := 1 - 2,
        decay := 2 } :=
  (burstStep_integration ⟨(3, 4), (1, 2), (0, 0), 10, 1, 2⟩ (by norm_num)).2.2

/-- **C8.** For a particle with `lifespan ≥ 0`, the emitted draw call is a
single point at the particle's position with the stored hue at full
saturation and brightness, alpha `lifespan / 255` (1 at lifespan 255, 0 at
lifespan 0), and stroke weight 5 when `lifespan > 200`, 3 otherwise. -/
theorem show_draw_call (pt : Particle) (hl : 0 ≤ pt.lifespan) :
    Particle.show' pt =
      { x := pt.pos.1,
        y := pt.pos.2,
        hue := pt.hue,
        sat := 255,
        bright := 255,
        alpha := pt.lifespan / 255,
        weight := if 200 < pt.lifespan then 5 else 3 }
    ∧ (pt.lifespan = 255 → (Particle.show' pt).alpha = 1)
    ∧ (pt.lifespan = 0 → (Particle.show' pt).alpha = 0) := by
  refine ⟨rfl, fun h => ?_, fun h => ?_⟩
  · simp [Particle.show', h]
  · simp [Particle.show', h]

/-- Closed instance of `show_draw_call` at a concrete particle. -/
theorem show_draw_call_witness :
    Particle.show' ⟨(3, 4), (1, 2), (0, 0), 10, 255, 2⟩ =
      { x := 3,
        y := 4,
        hue := 10,
        sat := 255,
        bright := 255,
        alpha := 255 / 255,
        weight := if (200 : ℚ) < 255 then 5 else 3 } :=
  (show_draw_call ⟨(3, 4), (1, 2), (0, 0), 10, 255, 2⟩ (by norm_num)).1

/-- **C9.** The animation is a deterministic function of the spawn schedule
(with the random draws it carries) and the initial burst list: equal inputs
give identical per-frame burst states and draw calls. -/
theorem animation_deterministic (a b : List (List SpawnEvent)) (fa fb : List Firework)
    (ha : a = b) (hf : fa = fb) :
    runAnimation a fa = runAnimation b fb := by
  rw [ha, hf]

/-- Closed instance of `animation_deterministic` on a one-spawn schedule. -/
theorem animation_deterministic_witness :
    runAnimation [[⟨1, 2, 30, fun _ => ⟨(1, 0), 5, 2, -9⟩⟩]] [] =
      runAnimation [[⟨1, 2, 30, fun _ => ⟨(1, 0), 5, 2, -9⟩⟩]] [] :=
  animation_deterministic _ _ _ _ rfl rfl

/-- Every particle surviving a `Firework.update` pass has nonnegative
lifespan (the `splice` removed exactly those with `done()`,
i.e. `lifespan < 0`). -/
theorem update_particles_nonneg (f : Firework) :
    ∀ q ∈ f.update.particles, 0 ≤ q.lifespan := by
  intro q hq
  simp only [Firework.update, List.mem_filter, Bool.not_eq_true'] at hq
  have h := hq.2
  simp only [Particle.done, decide_eq_false_iff_not, not_lt] at h
  exact h

/-- **C1.** An explosion-mode particle has a strictly positive decay rate;
while its lifespan is positive, the burst update step strictly decreases
the lifespan; a stepped particle with lifespan still at or above 0 stays in
its burst's collection; and no particle with lifespan below 0 is retained
(every survivor's lifespan is at or above 0). -/
theorem lifespan_strict_decrease_and_removal (x y hue : ℚ) (r : PRand) (hr : r.Valid)
    (f : Firework) (pt : Particle) :
    0 < (Particle.new x y hue r true).decay
    ∧ (0 < pt.lifespan → 0 < pt.decay →
        (Firework.burstStep pt).lifespan < pt.lifespan)
    ∧ (pt ∈ f.particles → 0 ≤ (Firework.burstStep pt).lifespan →
        Firework.burstStep pt ∈ f.update.particles)
    ∧ (∀ q ∈ f.update.particles, 0 ≤ q.lifespan) := by
  refine ⟨?_, fun h1 h2 => ?_, fun hm hnn => ?_, update_particles_nonneg f⟩
  · simp only [Particle.new, if_pos]
    linarith [hr.2.2.2.1]
  · simp only [Firework.burstStep, Particle.applyForce, Particle.update]
    rw [if_pos h1]
    simp only []
    linarith
  · simp only [Firework.update, List.mem_filter, Bool.not_eq_true']
    refine ⟨List.mem_map_of_mem _ hm, ?_⟩
    simp only [Particle.done, decide_eq_false_iff_not, not_lt]
    exact hnn

/-- Closed instance of `lifespan_strict_decrease_and_removal`: one burst
step strictly shrinks the lifespan of a live concrete particle. -/
theorem lifespan_strict_decrease_witness :
    (Firework.burstStep ⟨(0, 0), (1, 0), (0, 0), 10, 5, 2⟩).lifespan <
      (⟨(0, 0), (1, 0), (0, 0), 10, 5, 2⟩ : Particle).lifespan :=
  (lifespan_strict_decrease_and_removal 0 0 10 ⟨(3/5, 4/5), 10, 2, -10⟩
    (by norm_num [PRand.Valid])
    ⟨[], 10, false⟩ ⟨(0, 0), (1, 0), (0, 0), 10, 5, 2⟩).2.1 (by norm_num) (by norm_num)

/-- The only way `Firework.update` sets `done` is the collection having
become empty, so a completed burst always has an empty collection. -/
def Firework.Inv (f : Firework) : Prop := f.done = true → f.particles = []

/-- Under `Firework.Inv`, the completion flag after an update pass is
equivalent to emptiness of the updated collection. -/
theorem update_done_iff (f : Firework) (hf : f.Inv) :
    f.update.done = true ↔ f.update.particles = [] := by
  unfold Firework.update
  by_cases he : ((f.particles.map Firework.burstStep).filter fun pt => !pt.done) = []
  · simp [he]
  · have hne : ((f.particles.map Firework.burstStep).filter fun pt => !pt.done).isEmpty = false := by
      simpa [List.isEmpty_iff] using he
    simp only [hne, Bool.false_eq_true, if_false, he, iff_false]
    intro hd
    exact he (by simp [hf hd])

/-- **C2.** A freshly constructed burst satisfies the completion invariant,
an update pass preserves it, under it the completion flag after any update
pass holds exactly when the particle collection is empty, and a completed
burst never survives the frame pass (the top-level loop removes it on the
same pass). -/
theorem burst_done_iff_empty (x y hueDraw : ℚ) (rand : ℕ → PRand) (f : Firework)
    (hf : f.Inv) (fs : List Firework) :
    (Firework.new x y hueDraw rand).Inv
    ∧ (f.update).Inv
    ∧ (f.update.done = true ↔ f.update.particles = [])
    ∧ (∀ g ∈ (stepFrame fs).1, g.done = false) := by
  refine ⟨?_, ?_, update_done_iff f hf, ?_⟩
  · intro hd
    simp [Firework.new, Firework.explode] at hd
  · intro hd
    exact (update_done_iff f hf).mp hd
  · intro g hg
    simp only [stepFrame, List.mem_filter, Bool.not_eq_true'] at hg
    exact hg.2

/-- Closed instance of `burst_done_iff_empty`: a burst that loses its last
particle on this pass is flagged complete on the same pass. -/
theorem burst_done_iff_empty_witness :
    ((⟨[⟨(0, 0), (1, 0), (0, 0), 10, -1, 2⟩], 10, false⟩ : Firework).update.done = true ↔
      (⟨[⟨(0, 0), (1, 0), (0, 0), 10, -1, 2⟩], 10, false⟩ : Firework).update.particles = []) :=
  (burst_done_iff_empty 0 0 10 (fun _ => ⟨(1, 0), 5, 2, -9⟩)
    ⟨[⟨(0, 0), (1, 0), (0, 0), 10, -1, 2⟩], 10, false⟩
    (by intro h; simp at h) []).2.2.1

/-- **C6.** A freshly constructed burst holds exactly 120 particles; each
starts with lifespan 255, the burst's hue, a velocity that is a unit
direction scaled by a speed from `[5, 22)`, and a decay rate from
`[1.5, 4)`, given that the random draws obey the random source's contract. -/
theorem burst_initial_particles (x y hueDraw : ℚ) (rand : ℕ → PRand)
    (hr : ∀ i, (rand i).Valid) :
    (Firework.new x y hueDraw rand).particles.length = 120
    ∧ ∀ pt ∈ (Firework.new x y hueDraw rand).particles,
        pt.lifespan = 255
        ∧ pt.hue = (Firework.new x y hueDraw rand).hue
        ∧ (∃ (d : Vec) (s : ℚ),
            d.1 ^ 2 + d.2 ^ 2 = 1 ∧ 5 ≤ s ∧ s < 22 ∧ pt.vel = Vec.mult d s)
        ∧ 3/2 ≤ pt.decay ∧ pt.decay < 4 := by
  constructor
  · simp [Firework.new, Firework.explode]
  · intro pt hpt
    simp only [Firework.new, Firework.explode, List.nil_append, List.mem_map,
      List.mem_range] at hpt
    obtain ⟨i, _, rfl⟩ := hpt
    obtain ⟨hunit, hs1, hs2, hd1, hd2, _⟩ := hr i
    exact ⟨rfl, rfl, ⟨(rand i).dir, (rand i).speed, hunit, hs1, hs2, rfl⟩, hd1, hd2⟩

/-- Closed instance of `burst_initial_particles`: the particle count of a
concrete burst. -/
theorem burst_initial_particles_witness :
    (Firework.new 1 2 30 fun _ => ⟨(3/5, 4/5), 10, 2, -10⟩).particles.length = 120 :=
  (burst_initial_particles 1 2 30 (fun _ => ⟨(3/5, 4/5), 10, 2, -10⟩)
    (fun _ => by norm_num [PRand.Valid])).1

/-- **C3.** One hand's trigger step emits a spawn event exactly when the
euclidean landmark distance is strictly below 0.05 and the stored previous
state for that index (default `false`) is `false`; an emitted event sits at
the landmark midpoint scaled by the surface's pixel dimensions; and at or
above the threshold nothing is emitted, whatever the previous state. -/
theorem spawn_iff_pinch_edge (w ht : ℚ) (idx : ℕ) (h : Hand) (st : PinchState) :
    ((processHand w ht idx h st).2.isSome = true ↔
        distance h < 0.05 ∧ (st idx).getD false = false)
    ∧ (∀ s, (processHand w ht idx h st).2 = some s → s = midpointSpawn w ht h)
    ∧ ((0.05 : ℝ) ≤ distance h → (processHand w ht idx h st).2 = none) := by
  have hpin := isPinched_iff_distance_lt h
  refine ⟨?_, ?_, ?_⟩
  · rw [← hpin]
    cases hP : isPinched h <;> cases hW : (st idx).getD false <;>
      simp [processHand, hP, hW]
  · intro s hs
    by_cases hP : isPinched h = true
    · by_cases hW : (st idx).getD false = true
      · simp [processHand, hP, hW] at hs
      · rw [Bool.not_eq_true] at hW
        simp [processHand, hP, hW] at hs
        exact hs.symm
    · rw [Bool.not_eq_true] at hP
      simp [processHand, hP] at hs
  · intro hge
    have hP : isPinched h = false := by
      rw [Bool.eq_false_iff]
      intro hq
      exact absurd (hpin.mp hq) (not_lt.mpr hge)
    simp [processHand, hP]

/-- A frame's `forEach` leaves every state-table entry outside the range of
indices it visits untouched. -/
theorem stepHandsFrom_state_untouched (w ht : ℚ) (hands : List Hand) :
    ∀ (k j : ℕ) (st : PinchState), (j < k ∨ k + hands.length ≤ j) →
      (stepHandsFrom w ht k hands st).1 j = st j := by
  induction hands with
  | nil => intro k j st _; rfl
  | cons h rest ih =>
    intro k j st hj
    have hk : j ≠ k := by
      rcases hj with h1 | h1
      · omega
      · simp only [List.length_cons] at h1
        omega
    have hj' : j < k + 1 ∨ (k + 1) + rest.length ≤ j := by
      rcases hj with h1 | h1
      · left; omega
      · simp only [List.length_cons] at h1
        right; omega
    show (stepHandsFrom w ht (k + 1) rest ((processHand w ht k h st).1)).1 j = st j
    rw [ih (k + 1) j ((processHand w ht k h st).1) hj']
    simp [processHand, hk]

/-- After a frame's `forEach`, the entry of the `i`-th visited hand holds
that hand's fresh classification. -/
theorem stepHandsFrom_state_set (w ht : ℚ) (hands : List Hand) :
    ∀ (k : ℕ) (st : PinchState) (i : ℕ) (hi : i < hands.length),
      (stepHandsFrom w ht k hands st).1 (k + i) =
        some (isPinched (hands.get ⟨i, hi⟩)) := by
  induction hands with
  | nil => intro k st i hi; exact absurd hi (by simp)
  | cons h rest ih =>
    intro k st i hi
    show (stepHandsFrom w ht (k + 1) rest ((processHand w ht k h st).1)).1 (k + i) = _
    cases i with
    | zero =>
      rw [stepHandsFrom_state_untouched w ht rest (k + 1) (k + 0)
        ((processHand w ht k h st).1) (Or.inl (by omega))]
      simp [processHand]
    | succ i =>
      have hi' : i < rest.length := by simpa using hi
      have hix : k + (i + 1) = (k + 1) + i := by omega
      rw [hix, ih (k + 1) ((processHand w ht k h st).1) i hi']
      rfl

/-- **C5.** After one frame's trigger step, every reported hand index stores
exactly that frame's classification (`distance < 0.05`), overwriting the
previous value, and every index not reported in the frame keeps its old
entry. -/
theorem stored_state_after_frame (w ht : ℚ) (hands : List Hand) (st : PinchState) :
    (∀ (i : ℕ) (hi : i < hands.length),
        (stepHands w ht hands st).1 i = some (isPinched (hands.get ⟨i, hi⟩))
        ∧ ((stepHands w ht hands st).1 i = some true ↔
            distance (hands.get ⟨i, hi⟩) < 0.05))
    ∧ (∀ i : ℕ, hands.length ≤ i → (stepHands w ht hands st).1 i = st i) := by
  constructor
  · intro i hi
    have h0 := stepHandsFrom_state_set w ht hands 0 st i hi
    rw [Nat.zero_add] at h0
    refine ⟨h0, ?_⟩
    rw [stepHands, h0, Option.some.injEq]
    exact isPinched_iff_distance_lt _
  · intro i hi
    exact stepHandsFrom_state_untouched w ht hands 0 i st (Or.inr (by omega))

/-- A hand at landmark distance 0.08 (thumb `(0.1, 0.2)`, index
`(0.18, 0.2)`) is not classified as pinched. -/
theorem isPinched_far : isPinched ⟨(0.1, 0.2), (0.18, 0.2)⟩ = false := by
  simp only [isPinched, dist2, pinchThreshold, decide_eq_false_iff_not, not_lt]
  norm_num

/-- A hand at landmark distance 0.03 (thumb `(0.1, 0.2)`, index
`(0.13, 0.2)`) is classified as pinched. -/
theorem isPinched_near : isPinched ⟨(0.1, 0.2), (0.13, 0.2)⟩ = true := by
  simp only [isPinched, dist2, pinchThreshold, decide_eq_true_eq]
  norm_num

/-- While a single tracked hand stays pinched and its stored state already
says pinched, no frame emits any spawn event. -/
theorem runTrigger_held_pinched (w ht : ℚ) (hs : List Hand) :
    ∀ st : PinchState, (∀ h ∈ hs, isPinched h = true) → (st 0).getD false = true →
      (runTrigger w ht (hs.map fun h => [h]) st).2 = List.replicate hs.length [] := by
  induction hs with
  | nil => intro st _ _; rfl
  | cons h rest ih =>
    intro st hall h0
    have hh : isPinched h = true := hall h (by simp)
    have hev : (stepHands w ht [h] st).2 = [] := by
      simp [stepHands, stepHandsFrom, processHand, hh, h0]
    have hst : ((stepHands w ht [h] st).1 0).getD false = true := by
      simp [stepHands, stepHandsFrom, processHand, hh]
    simp only [List.map_cons, runTrigger]
    rw [hev, ih ((stepHands w ht [h] st).1) (fun g hg => hall g (by simp [hg])) hst]
    rw [List.length_cons, List.replicate_succ]

/-- The scenario's four frames: one hand (index 0) at landmark distance
0.08, 0.03, 0.03, 0.08. -/
def scenarioFrames : List (List Hand) :=
  [[⟨(0.1, 0.2), (0.18, 0.2)⟩], [⟨(0.1, 0.2), (0.13, 0.2)⟩],
   [⟨(0.1, 0.2), (0.13, 0.2)⟩], [⟨(0.1, 0.2), (0.18, 0.2)⟩]]

/-- **C4.** On the distance scenario 0.08, 0.03, 0.03, 0.08 for a fresh hand
index, the four frames emit 0, 1, 0, 0 spawn events; and in general a single
hand that is pinched for N consecutive frames starting from a non-pinched
stored state emits exactly one spawn event, on the first frame only. -/
theorem single_spawn_per_pinch_hold (w ht : ℚ) (h0 : Hand) (rest : List Hand)
    (st : PinchState) (hall : ∀ h ∈ h0 :: rest, isPinched h = true)
    (hst : (st 0).getD false = false) :
    ((runTrigger w ht scenarioFrames PinchState.empty).2.map List.length = [0, 1, 0, 0])
    ∧ (runTrigger w ht ((h0 :: rest).map fun h => [h]) st).2 =
        [midpointSpawn w ht h0] :: List.replicate rest.length [] := by
  constructor
  · simp [scenarioFrames, runTrigger, stepHands, stepHandsFrom, processHand,
      isPinched_far, isPinched_near, PinchState.empty]
  · have hh : isPinched h0 = true := hall h0 (by simp)
    have hev : (stepHands w ht [h0] st).2 = [midpointSpawn w ht h0] := by
      simp [stepHands, stepHandsFrom, processHand, hh, hst]
    have hst' : ((stepHands w ht [h0] st).1 0).getD false = true := by
      simp [stepHands, stepHandsFrom, processHand, hh]
    simp only [List.map_cons, runTrigger]
    rw [hev, runTrigger_held_pinched w ht rest ((stepHands w ht [h0] st).1)
      (fun g hg => hall g (by simp [hg])) hst']

/-- Closed instance of `single_spawn_per_pinch_hold`: a one-frame pinch from
a fresh state emits exactly the one midpoint spawn event. -/
theorem single_spawn_witness :
    (runTrigger 1 1 ([(⟨(0.1, 0.2), (0.13, 0.2)⟩ : Hand)].map fun h => [h])
        PinchState.empty).2 =
      [midpointSpawn 1 1 ⟨(0.1, 0.2), (0.13, 0.2)⟩] :: List.replicate 0 [] :=
  (single_spawn_per_pinch_hold 1 1 ⟨(0.1, 0.2), (0.13, 0.2)⟩ [] PinchState.empty
    (by
      intro g hg
      simp only [List.mem_singleton] at hg
      rw [hg]
      exact isPinched_near)
    rfl).2

/-- For a particle with lifespan exactly 0, one burst step only adds gravity
to the accumulated force: the `update()` guard `lifespan > 0` fails, so
position, velocity and lifespan stay put and the force is not reset. -/
theorem burstStep_frozen (pt : Particle) (hl : pt.lifespan = 0) :
    Firework.burstStep pt = { pt with acc := Vec.add pt.acc Firework.gravity } := by
  unfold Firework.burstStep Particle.applyForce Particle.update
  rw [if_neg (by simp [hl])]

/-- Iterating the burst step on a lifespan-0 particle freezes position,
velocity and lifespan while gravity piles up in the accumulated force. -/
theorem burstStep_iter_frozen (pt : Particle) (hl : pt.lifespan = 0) (n : ℕ) :
    (Firework.burstStep^[n] pt).pos = pt.pos
    ∧ (Firework.burstStep^[n] pt).vel = pt.vel
    ∧ (Firework.burstStep^[n] pt).lifespan = 0
    ∧ (Firework.burstStep^[n] pt).acc = (pt.acc.1, pt.acc.2 + n * 0.15) := by
  induction n with
  | zero => exact ⟨rfl, rfl, hl, by simp⟩
  | succ n ih =>
    rw [Function.iterate_succ_apply']
    obtain ⟨hp, hv, hlf, ha⟩ := ih
    rw [burstStep_frozen _ hlf]
    refine ⟨hp, hv, hlf, ?_⟩
    simp only [Vec.add, ha, Firework.gravity]
    rw [Prod.mk.injEq]
    constructor
    · ring
    · push_cast
      ring

/-- **C10.** A particle whose lifespan is exactly 0 is frozen forever: every
burst step leaves its position, velocity and lifespan unchanged, its
`done()` check stays `false`, it is never removed from its burst and the
burst's update never flips the completion flag, while gravity accumulates
linearly (and hence unboundedly) in its accumulated-force field. -/
theorem frozen_particle_accumulates_gravity (pt : Particle) (f : Firework) (n : ℕ)
    (hl : pt.lifespan = 0) :
    ((Firework.burstStep^[n] pt).pos = pt.pos
      ∧ (Firework.burstStep^[n] pt).vel = pt.vel
      ∧ (Firework.burstStep^[n] pt).lifespan = 0
      ∧ (Firework.burstStep^[n] pt).acc = (pt.acc.1, pt.acc.2 + n * 0.15))
    ∧ (Firework.burstStep^[n] pt).done = false
    ∧ (pt ∈ f.particles →
        Firework.burstStep pt ∈ f.update.particles ∧ f.update.done = f.done) := by
  obtain ⟨hp, hv, hlf, ha⟩ := burstStep_iter_frozen pt hl n
  refine ⟨⟨hp, hv, hlf, ha⟩, by simp [Particle.done, hlf], fun hm => ?_⟩
  have hd : (Firework.burstStep pt).done = false := by
    rw [burstStep_frozen pt hl]
    simp [Particle.done, hl]
  have hmem : Firework.burstStep pt ∈
      (f.particles.map Firework.burstStep).filter fun q => !q.done := by
    rw [List.mem_filter]
    exact ⟨List.mem_map_of_mem _ hm, by simp [hd]⟩
  refine ⟨hmem, ?_⟩
  have hfalse : ((f.particles.map Firework.burstStep).filter fun q => !q.done).isEmpty
      = false := by
    cases hcase : ((f.particles.map Firework.burstStep).filter fun q => !q.done).isEmpty
    · rfl
    · rw [List.isEmpty_iff] at hcase
      rw [hcase] at hmem
      exact absurd hmem (List.not_mem_nil _)
  simp [Firework.update, hfalse]

/-- Closed instance of `frozen_particle_accumulates_gravity`: three burst
steps on a frozen concrete particle triple the accumulated gravity. -/
theorem frozen_particle_witness :
    (Firework.burstStep^[3] ⟨(0, 0), (1, 0), (0, 0), 10, 0, 2⟩).acc =
      (((0, 0) : Vec).1, ((0, 0) : Vec).2 + (3 : ℕ) * 0.15) :=
  (frozen_particle_accumulates_gravity ⟨(0, 0), (1, 0), (0, 0), 10, 0, 2⟩
    ⟨[], 10, false⟩ 3 rfl).1.2.2.2
